import Mathlib

/-
  Verification development for the PharmaZer research-paper pipeline
  (pipeline.py / utils.py): a shallow embedding of the affiliation
  enrichment engine and the record flattener, together with theorems
  about the claims of the specification.

  Python strings are modelled as Lean `String` / `List Char`; Python
  regular-expression search, findall and str.replace are modelled by a
  small backtracking engine below that implements exactly the greedy,
  leftmost, priority-ordered semantics of the `re` module for the two
  patterns the source compiles (EMAIL_PATTERN and ZIPCODE_PATTERN).
  External capabilities (the spaCy NER model, the rapidfuzz scorer and
  the pycountry name set) are parameters of the embedding, as the spec
  treats them as black boxes.
-/

/-- Word characters as used by the `\b` assertion of the `re` module
(ASCII letters, digits and underscore; the source texts are ASCII). -/
def isWordChar (c : Char) : Bool := c.isAlpha || c.isDigit || c = '_'

/-- Syntax of the regular expressions needed by the source: single
character classes, concatenation, prioritised alternation, greedy
option, greedy star and the word-boundary assertion. -/
inductive RE where
  | cls (p : Char → Bool)
  | seq (a b : RE)
  | alt (a b : RE)
  | opt (a : RE)
  | star (a : RE)
  | wb

/-- Backtracking matcher in continuation-passing style. Alternatives are
tried in priority order (left branch first, longer repetition first),
which is exactly the order the Python `re` backtracking engine uses, so
the first success returned here is the match Python returns. `prev` is
the character immediately before the current position (for `\b`). The
fuel decreases on every call so that the recursion is structural (and
hence reduces definitionally): one unit is consumed per level of regex
syntax entered at a given string position and one per star unfolding,
so the fuel needed is at most the syntactic depth of the pattern plus
the string length; star iterations always consume a character for the
source patterns. `matchLen` therefore supplies `length + 100` fuel,
which neither pattern of the source (depth below 30, no nested stars)
can exhaust, making the semantics exact. -/
def matchR : Nat → RE → Option Char → List Char →
    (Option Char → List Char → Option (List Char)) → Option (List Char)
  | 0, _, _, _, _ => none
  | _ + 1, RE.cls _, _, [], _ => none
  | _ + 1, RE.cls p, _, c :: rest, k => if p c then k (some c) rest else none
  | fuel + 1, RE.seq a b, prev, s, k =>
      matchR fuel a prev s (fun p2 s2 => matchR fuel b p2 s2 k)
  | fuel + 1, RE.alt a b, prev, s, k =>
      (matchR fuel a prev s k).orElse (fun _ => matchR fuel b prev s k)
  | fuel + 1, RE.opt a, prev, s, k =>
      (matchR fuel a prev s k).orElse (fun _ => k prev s)
  | fuel + 1, RE.star a, prev, s, k =>
      (matchR fuel a prev s
        (fun p2 s2 => matchR fuel (RE.star a) p2 s2 k)).orElse (fun _ => k prev s)
  | _ + 1, RE.wb, prev, s, k =>
      let before := match prev with | none => false | some c => isWordChar c
      let after := match s with | [] => false | c :: _ => isWordChar c
      if before ≠ after then k prev s else none

/-- Length of the match of `re` anchored at the current position, if any
(the length Python reports for `group(0)` at that position). -/
def matchLen (re : RE) (prev : Option Char) (s : List Char) : Option Nat :=
  (matchR (s.length + 100) re prev s (fun _ rest => some rest)).map
    (fun rest => s.length - rest.length)

/-- Scanner underlying `re.findall`: tries the pattern at every
position, left to right; on a match it records the matched text and
resumes immediately after it (Python advances one position on an empty
match). The fuel starts at `length + 1`, which the scan cannot exhaust. -/
def findAllAux : Nat → RE → Option Char → List Char → List (List Char)
  | 0, _, _, _ => []
  | fuel + 1, re, prev, s =>
    match matchLen re prev s with
    | some n =>
      if n = 0 then
        match s with
        | [] => [[]]
        | c :: rest => [] :: findAllAux fuel re (some c) rest
      else
        (s.take n) :: findAllAux fuel re (s.take n).getLast? (s.drop n)
    | none =>
      match s with
      | [] => []
      | c :: rest => findAllAux fuel re (some c) rest

/-- Scanner underlying `re.search`: the matched text of the leftmost
match, if any. -/
def searchAux : Nat → RE → Option Char → List Char → Option (List Char)
  | 0, _, _, _ => none
  | fuel + 1, re, prev, s =>
    match matchLen re prev s with
    | some n => some (s.take n)
    | none =>
      match s with
      | [] => none
      | c :: rest => searchAux fuel re (some c) rest

/-- Model of Python `str.replace(old, new)` (all non-overlapping
occurrences, left to right, resuming after the inserted text). The
source only ever replaces non-empty `old` strings, so the empty-pattern
behaviour is irrelevant; fuel `length + 1` is never exhausted. -/
def replaceAllAux (old new : List Char) : Nat → List Char → List Char
  | 0, s => s
  | fuel + 1, s =>
    if old ≠ [] ∧ old.isPrefixOf s then
      new ++ replaceAllAux old new fuel (s.drop old.length)
    else
      match s with
      | [] => []
      | c :: rest => c :: replaceAllAux old new fuel rest

/-- Model of Python `str.replace(old, new, 1)` (first occurrence only). -/
def replaceFirstAux (old new : List Char) : Nat → List Char → List Char
  | 0, s => s
  | fuel + 1, s =>
    if old ≠ [] ∧ old.isPrefixOf s then new ++ s.drop old.length
    else
      match s with
      | [] => []
      | c :: rest => c :: replaceFirstAux old new fuel rest

/-- Python `str.replace(old, new)` on `String`. -/
def pyReplaceAll (s old new : String) : String :=
  String.mk (replaceAllAux old.data new.data (s.data.length + 1) s.data)

/-- Python `str.replace(old, new, 1)` on `String`. -/
def pyReplaceFirst (s old new : String) : String :=
  String.mk (replaceFirstAux old.data new.data (s.data.length + 1) s.data)

/-- Python `str.strip()`: remove leading and trailing whitespace. -/
def pyStrip (s : String) : String :=
  String.mk (((s.data.dropWhile Char.isWhitespace).reverse.dropWhile
    Char.isWhitespace).reverse)

/-- Character class for a single literal character. -/
def chrR (c : Char) : RE := RE.cls (fun x => x = c)

/-- Character class for a single literal character, case-insensitive
(`c` given in upper case), as under the `(?i)` flag. -/
def ciChr (c : Char) : RE := RE.cls (fun x => x.toUpper = c)

/-- Greedy `+` quantifier. -/
def plusR (a : RE) : RE := RE.seq a (RE.star a)

/-- Greedy `{2,}` quantifier. -/
def rep2plus (a : RE) : RE := RE.seq a (RE.seq a (RE.star a))

/-- Class `[A-Za-z0-9._%+-]` (the local part of EMAIL_PATTERN). -/
def emailLocalCls : RE :=
  RE.cls (fun c => c.isAlpha || c.isDigit || c = '.' || c = '_' ||
    c = '%' || c = '+' || c = '-')

/-- Class `[A-Za-z0-9.-]` (the domain part of EMAIL_PATTERN). -/
def emailDomainCls : RE :=
  RE.cls (fun c => c.isAlpha || c.isDigit || c = '.' || c = '-')

/-- Class `[A-Za-z]`. -/
def alphaCls : RE := RE.cls Char.isAlpha

/-- Class `\d`. -/
def digitCls : RE := RE.cls Char.isDigit

/-- Class `\s`. -/
def spaceCls : RE := RE.cls Char.isWhitespace

/-- EMAIL_PATTERN of the source:
`[A-Za-z0-9._%+-]+@[A-Za-z0-9.-]+\.[A-Za-z]{2,}`. -/
def EMAIL_PATTERN : RE :=
  RE.seq (plusR emailLocalCls)
    (RE.seq (chrR ('@'))
      (RE.seq (plusR emailDomainCls)
        (RE.seq (chrR ('.')) (rep2plus alphaCls))))

/-- Class `[A-HJ-Y]` under `(?i)`. -/
def ukSecondCls : RE :=
  RE.cls (fun c =>
    (decide ('A' ≤ c.toUpper) && decide (c.toUpper ≤ 'H')) ||
    (decide ('J' ≤ c.toUpper) && decide (c.toUpper ≤ 'Y')))

/-- Class `[A-Z\d]` under `(?i)`. -/
def alnumCls : RE := RE.cls (fun c => c.isAlpha || c.isDigit)

/-- Class `[ABCEGHJKLMNPRSTVXY]` under `(?i)`. -/
def caFirstCls : RE :=
  RE.cls (fun c => ("ABCEGHJKLMNPRSTVXY".data).contains c.toUpper)

/-- Class `[ABCEGHJKLMNPRSTVWXYZ]` under `(?i)`. -/
def caRestCls : RE :=
  RE.cls (fun c => ("ABCEGHJKLMNPRSTVWXYZ".data).contains c.toUpper)

/-- First ZIPCODE_PATTERN branch, UK format:
`[A-Z][A-HJ-Y]?\d[A-Z\d]? ?\d[A-Z]{2}` under `(?i)`. -/
def zipBranchUK : RE :=
  RE.seq alphaCls
    (RE.seq (RE.opt ukSecondCls)
      (RE.seq digitCls
        (RE.seq (RE.opt alnumCls)
          (RE.seq (RE.opt (chrR (' ')))
            (RE.seq digitCls (RE.seq alphaCls alphaCls))))))

/-- Second ZIPCODE_PATTERN branch, `GIR\s*0AA` under `(?i)`. -/
def zipBranchGIR : RE :=
  RE.seq (ciChr ('G'))
    (RE.seq (ciChr ('I'))
      (RE.seq (ciChr ('R'))
        (RE.seq (RE.star spaceCls)
          (RE.seq (chrR ('0')) (RE.seq (ciChr ('A')) (ciChr ('A')))))))

/-- Third ZIPCODE_PATTERN branch, US format: `\b\d{5}(-\d{4})?\b`. -/
def zipBranchUS : RE :=
  RE.seq RE.wb
    (RE.seq digitCls
      (RE.seq digitCls
        (RE.seq digitCls
          (RE.seq digitCls
            (RE.seq digitCls
              (RE.seq
                (RE.opt (RE.seq (chrR ('-'))
                  (RE.seq digitCls (RE.seq digitCls (RE.seq digitCls digitCls)))))
                RE.wb))))))

/-- Fourth ZIPCODE_PATTERN branch, Canadian format:
`([ABCEGHJKLMNPRSTVXY]\d[ABCEGHJKLMNPRSTVWXYZ])\ ?(\d[ABCEGHJKLMNPRSTVWXYZ]\d)`
under `(?i)` (groups do not affect `group(0)`). -/
def zipBranchCA : RE :=
  RE.seq caFirstCls
    (RE.seq digitCls
      (RE.seq caRestCls
        (RE.seq (RE.opt (chrR (' ')))
          (RE.seq digitCls (RE.seq caRestCls digitCls)))))

/-- Fifth ZIPCODE_PATTERN branch, generic six digits: `\d{6}`. -/
def zipBranchSix : RE :=
  RE.seq digitCls
    (RE.seq digitCls
      (RE.seq digitCls (RE.seq digitCls (RE.seq digitCls digitCls))))

/-- ZIPCODE_PATTERN of the source: the five branches above, alternated
in source order `(uk|gir)|us|ca|six`. -/
def ZIPCODE_PATTERN : RE :=
  RE.alt (RE.alt zipBranchUK zipBranchGIR)
    (RE.alt zipBranchUS (RE.alt zipBranchCA zipBranchSix))

/-- Model of `re.findall(EMAIL_PATTERN, text)`: all non-overlapping
matches, in document order (the pattern has no capture groups, so
findall returns whole matches). -/
def findallEmails (s : String) : List String :=
  (findAllAux (s.data.length + 1) EMAIL_PATTERN none s.data).map String.mk

/-- Model of `re.search(ZIPCODE_PATTERN, text)` followed by `.group(0)`:
the text of the first match in document order, if any. -/
def searchZipcode (s : String) : Option String :=
  (searchAux (s.data.length + 1) ZIPCODE_PATTERN none s.data).map String.mk

/-- Embedding of `extract_and_remove_email` (pipeline.py): findall all
email-like substrings; if none, return the text unmodified; otherwise,
for every found email replace the phrasing
`Electronic address: {email}.` by a period and then remove remaining
bare occurrences of the email, and return the first found email with
the remaining text stripped. -/
def extract_and_remove_email (affiliation_text : String) :
    Option String × String :=
  match findallEmails affiliation_text with
  | [] => (none, affiliation_text)
  | e :: es =>
    let cleaned := (e :: es).foldl
      (fun t email =>
        pyReplaceAll (pyReplaceAll t ("Electronic address: " ++ email ++ ".") (".")) email (""))
      affiliation_text
    (some e, pyStrip cleaned)

/-- Embedding of `extract_and_remove_zipcode` (pipeline.py): search the
first zipcode match; if none, return the text unmodified; otherwise
remove the first substring occurrence of the matched text (Python
`str.replace(zipcode, "", 1)`) and return the match with the remainder
stripped. -/
def extract_and_remove_zipcode (affiliation_text : String) :
    Option String × String :=
  match searchZipcode affiliation_text with
  | none => (none, affiliation_text)
  | some zipcode =>
    (some zipcode, pyStrip (pyReplaceFirst affiliation_text zipcode ("")))

/-- One tagged entity produced by the spaCy NER model: its entity label
(`ent.label_`, e.g. `GPE` or `ORG`) and its surface text (`ent.text`).
The tagged document is the list of entities in document order. -/
structure Ent where
  label : String
  text : String
deriving DecidableEq, Repr

/-- Embedding of the loop of `extract_affiliation_country`: walk the
already reversed entity list; on a geopolitical entity, apply the two
alias rules, then exact membership in the country-name set; the first
entity that yields a name wins, otherwise continue. -/
def country_loop (countries : List String) : List Ent → Option String
  | [] => none
  | e :: rest =>
    if e.label = "GPE" then
      if e.text = "UK" ∨ e.text = "U.K" then some ("United Kingdom")
      else if e.text = "USA" ∨ e.text = "U.S.A" ∨ e.text = "United States of America" then
        some ("United States")
      else if e.text ∈ countries then some e.text
      else country_loop countries rest
    else country_loop countries rest

/-- Embedding of `extract_affiliation_country` (pipeline.py): iterate
the tagged entities in reverse document order with the loop above. The
set `COUNTRY_NAMES` (built from the external pycountry data) is a
parameter. -/
def extract_affiliation_country (affiliation_items : List Ent)
    (countries : List String) : Option String :=
  country_loop countries affiliation_items.reverse

/-- Run-scoped match cache: a Python dict from raw organization mention
to matched canonical name. Keys are unique when inserted by the
matcher, and lookup returns the most recent binding, so an association
list with head insertion models the dict exactly. -/
def Cache : Type := List (String × String)

/-- Dict lookup, `cache.get(org)` / `org in cache`. -/
def cacheLookup : Cache → String → Option String
  | [], _ => none
  | (k, v) :: rest, q => if q = k then some v else cacheLookup rest q

/-- Organization-mention candidates of `extract_and_match_affiliation_name`:
the texts of the ORG-labelled entities, in reverse document order. -/
def foundOrgs (affiliation_items : List Ent) : List String :=
  (affiliation_items.reverse).filterMap
    (fun e => if e.label = "ORG" then some e.text else none)

/-- Embedding of the first loop of the matcher: the first candidate (in
list order) already present in the cache, if any. -/
def firstHit (cache : Cache) : List String → Option String
  | [] => none
  | o :: rest => if (cacheLookup cache o).isSome then some o else firstHit cache rest

/-- Embedding of `rapidfuzz.process.extractOne(query, choices,
scorer=..., score_cutoff=cutoff)`: scores every choice, keeps the first
choice attaining the running maximum, and returns it together with its
score provided the score reaches the cutoff. The scorer (`fuzz.ratio`
in the source, a similarity in 0..100) is an external capability and is
a parameter. -/
def extractOne (scorer : String → String → Nat) (query : String)
    (cutoff : Nat) : List String → Option (String × Nat) → Option (String × Nat)
  | [], best => best
  | name :: rest, best =>
    let sc := scorer query name
    let best2 :=
      match best with
      | none => if cutoff ≤ sc then some (name, sc) else none
      | some (bn, bs) => if bs < sc then some (name, sc) else some (bn, bs)
    extractOne scorer query cutoff rest best2

/-- Embedding of the second loop of the matcher, reached only when no
candidate is in the cache (the first loop returns otherwise), so
`affiliation_cache.get(org)` is always `None` there and every candidate
is scored by `extractOne` against the whole reference list. The state
is the best `(candidate, matchedName, score)` triple so far (`None`
with best score 0 initially, replaced on strictly greater score) and
the running count of similarity computations (one per reference name
per candidate). -/
def bestLoop (scorer : String → String → Nat) (names : List String) :
    List String → Option (String × String × Nat) → Nat →
    Option (String × String × Nat) × Nat
  | [], best, cnt => (best, cnt)
  | org :: rest, best, cnt =>
    let cnt2 := cnt + names.length
    match extractOne scorer org 90 names none with
    | none => bestLoop scorer names rest best cnt2
    | some (nm, sc) =>
      if (match best with | none => 0 | some (_, _, bs) => bs) < sc then
        bestLoop scorer names rest (some (org, nm, sc)) cnt2
      else bestLoop scorer names rest best cnt2

/-- Embedding of `extract_and_match_affiliation_name` (pipeline.py).
Returns `((grid_name, pubmed_name), cache, simCount)` where `simCount`
is the number of similarity computations performed. Control flow of the
source: collect ORG mentions in reverse order; if none, `(None, None)`;
if some candidate is in the cache, return the cached value with that
candidate immediately; otherwise score all candidates, store a
qualifying best match in the cache and return it, and with no
qualifying match return `None` with the first candidate. -/
def extract_and_match_affiliation_name (scorer : String → String → Nat)
    (affiliation_items : List Ent) (affiliation_names : List String)
    (affiliation_cache : Cache) :
    (Option String × Option String) × Cache × Nat :=
  match foundOrgs affiliation_items with
  | [] => ((none, none), affiliation_cache, 0)
  | o0 :: rest =>
    match firstHit affiliation_cache (o0 :: rest) with
    | some org => ((cacheLookup affiliation_cache org, some org), affiliation_cache, 0)
    | none =>
      match bestLoop scorer affiliation_names (o0 :: rest) none 0 with
      | (some (bo, bm, _), cnt) => ((some bm, some bo), (bo, bm) :: affiliation_cache, cnt)
      | (none, cnt) => ((none, some o0), affiliation_cache, cnt)

/-- One row of the GRID reference dataset (institutes.csv): canonical
institution name and GRID identifier. -/
structure InstRow where
  name : String
  grid_id : String
deriving DecidableEq, Repr

/-- Errors the embedded pipeline code can raise: `typeError` models the
TypeError of `re.findall(pattern, None)` on a missing affiliation text,
and `indexError` models the IndexError of `.iloc[0]` on an empty
selection. -/
inductive Err where
  | typeError
  | indexError
deriving DecidableEq, Repr

/-- Embedding of `get_grid_identifier` (pipeline.py): a falsy name
(`None` or the empty string) yields `None`; otherwise select the rows
whose name equals the given name and take `.iloc[0]` of their
`grid_id` column, which raises IndexError when the selection is empty
and silently yields the first row when several match. -/
def get_grid_identifier (grid_affiliation_name : Option String)
    (institute_data : List InstRow) : Except Err (Option String) :=
  match grid_affiliation_name with
  | none => Except.ok none
  | some n =>
    if n = "" then Except.ok none
    else
      match institute_data.filter (fun r => r.name = n) with
      | [] => Except.error Err.indexError
      | r :: _ => Except.ok (some r.grid_id)

/-- One output row under the fixed 15-column schema; the Python dict is
built incrementally, so every field is optional and starts empty. -/
structure Row where
  articlePMID : Option String := none
  articleTitle : Option String := none
  articleKeywords : Option String := none
  articleMESH : Option String := none
  articleYear : Option String := none
  authorFirstName : Option String := none
  authorLastName : Option String := none
  authorInitials : Option String := none
  authorFullName : Option String := none
  authorEmail : Option String := none
  affiliationPubmedName : Option String := none
  affiliationGridName : Option String := none
  affiliationZipcode : Option String := none
  affiliationCountry : Option String := none
  affiliationGridId : Option String := none
deriving DecidableEq, Repr

/-- One author element: text of an optional `CollectiveName` child (its
presence makes the record flattener skip the author), the optional
`ForeName`, `LastName` and `Initials` children, and the texts of the
`AffiliationInfo/Affiliation` children (`None` for an empty element). -/
structure AuthorX where
  collectiveName : Option String
  foreName : Option String
  lastName : Option String
  initials : Option String
  affiliations : List (Option String)
deriving DecidableEq, Repr

/-- One `PubmedArticle` element, with the fields `insert_article_info`
reads and the author list the record flattener walks. -/
structure ArticleX where
  pmid : Option String
  title : Option String
  keywords : List (Option String)
  meshUIs : List String
  year : Option String
  authors : List AuthorX
deriving DecidableEq, Repr

/-- Rendering of an optional value inside a Python f-string: `None`
prints as the literal text `None`. -/
def pyFStr : Option String → String
  | none => "None"
  | some s => s

/-- Embedding of `insert_article_info` (pipeline.py): copies the PMID,
title and year, joins the non-`None` keyword texts with a comma when
the keyword list is non-empty, and joins the MESH descriptor UI
attributes likewise. -/
def insert_article_info (article : ArticleX) (target : Row) : Row :=
  { target with
    articlePMID := article.pmid
    articleTitle := article.title
    articleKeywords :=
      if article.keywords ≠ [] then
        some (String.intercalate (", ") (article.keywords.filterMap id))
      else none
    articleMESH :=
      if article.meshUIs ≠ [] then
        some (String.intercalate (", ") article.meshUIs)
      else none
    articleYear := article.year }

/-- Embedding of `insert_author_info` (pipeline.py): copies the name
parts and derives the full name with the f-string
`f"{first_name} {last_name}"`, in which an absent part prints as the
literal text `None`. -/
def insert_author_info (author : AuthorX) (target : Row) : Row :=
  { target with
    authorFirstName := author.foreName
    authorLastName := author.lastName
    authorInitials := author.initials
    authorFullName := some (pyFStr author.foreName ++ " " ++ pyFStr author.lastName) }

/-- Embedding of `extract_and_insert_affiliation_info` (pipeline.py).
The spaCy model (`tagger`) and rapidfuzz scorer are parameters, as is
the country-name set. A missing affiliation text (`<Affiliation/>` with
no text) makes `re.findall` raise TypeError; no failure is caught. -/
def extract_and_insert_affiliation_info (tagger : String → List Ent)
    (scorer : String → String → Nat) (countries : List String)
    (affiliation : Option String) (target : Row)
    (institution_data : List InstRow) (affiliation_cache : Cache) :
    Except Err (Row × Cache) :=
  match affiliation with
  | none => Except.error Err.typeError
  | some affiliation_text0 =>
    let (email, affiliation_text1) := extract_and_remove_email affiliation_text0
    let (zipcode, affiliation_text2) := extract_and_remove_zipcode affiliation_text1
    let doc := tagger affiliation_text2
    let institution_names := institution_data.map (fun r => r.name)
    match extract_and_match_affiliation_name scorer doc institution_names affiliation_cache with
    | ((grid_name, pubmed_name), cache2, _) =>
      match get_grid_identifier grid_name institution_data with
      | Except.error e => Except.error e
      | Except.ok gid =>
        Except.ok
          ({ target with
              authorEmail := email
              affiliationZipcode := zipcode
              affiliationPubmedName := pubmed_name
              affiliationGridName := grid_name
              affiliationGridId := gid
              affiliationCountry := extract_affiliation_country doc countries }, cache2)

/-- Inner loop of `process_xml_and_generate_csv` over the affiliation
elements of one author: one enriched row is appended per affiliation,
the cache threading through; the first uncaught failure aborts. -/
def process_affiliations (tagger : String → List Ent)
    (scorer : String → String → Nat) (countries : List String)
    (institution_data : List InstRow) (base : Row) :
    List (Option String) → Cache → Except Err (List Row × Cache)
  | [], cache => Except.ok ([], cache)
  | a :: rest, cache =>
    match extract_and_insert_affiliation_info tagger scorer countries a base institution_data cache with
    | Except.error e => Except.error e
    | Except.ok (row, cache2) =>
      match process_affiliations tagger scorer countries institution_data base rest cache2 with
      | Except.error e => Except.error e
      | Except.ok (rows, cache3) => Except.ok (row :: rows, cache3)

/-- Middle loop of `process_xml_and_generate_csv` over the authors of
one article: authors with a `CollectiveName` child are skipped
entirely; for the others the author fields are merged into a copy of
the article data and all their affiliations processed. -/
def process_authors (tagger : String → List Ent)
    (scorer : String → String → Nat) (countries : List String)
    (institution_data : List InstRow) (article_data : Row) :
    List AuthorX → Cache → Except Err (List Row × Cache)
  | [], cache => Except.ok ([], cache)
  | au :: rest, cache =>
    if au.collectiveName.isSome then
      process_authors tagger scorer countries institution_data article_data rest cache
    else
      match process_affiliations tagger scorer countries institution_data
          (insert_author_info au article_data) au.affiliations cache with
      | Except.error e => Except.error e
      | Except.ok (rows1, cache2) =>
        match process_authors tagger scorer countries institution_data article_data rest cache2 with
        | Except.error e => Except.error e
        | Except.ok (rows2, cache3) => Except.ok (rows1 ++ rows2, cache3)

/-- Outer loop of `process_xml_and_generate_csv` over the articles of
the citation tree. -/
def process_articles (tagger : String → List Ent)
    (scorer : String → String → Nat) (countries : List String)
    (institution_data : List InstRow) :
    List ArticleX → Cache → Except Err (List Row × Cache)
  | [], cache => Except.ok ([], cache)
  | art :: rest, cache =>
    match process_authors tagger scorer countries institution_data
        (insert_article_info art {}) art.authors cache with
    | Except.error e => Except.error e
    | Except.ok (rows1, cache2) =>
      match process_articles tagger scorer countries institution_data rest cache2 with
      | Except.error e => Except.error e
      | Except.ok (rows2, cache3) => Except.ok (rows1 ++ rows2, cache3)

/-- Embedding of `process_xml_and_generate_csv` (pipeline.py): walks
article, author and affiliation with a fresh empty cache and collects
the enriched rows that become the CSV lines, in document order. -/
def process_xml_and_generate_csv (tagger : String → List Ent)
    (scorer : String → String → Nat) (countries : List String)
    (articles : List ArticleX) (institution_data : List InstRow) :
    Except Err (List Row) :=
  match process_articles tagger scorer countries institution_data articles [] with
  | Except.error e => Except.error e
  | Except.ok (rows, _) => Except.ok rows

/-- Specification-side classification of one tagged entity, following
the claim wording for the Country Normalizer: only geopolitical-entity
spans qualify; the two alias rules are evaluated before exact
membership in the canonical country set; a non-qualifying entity yields
nothing. -/
def classifyCountry (countries : List String) (e : Ent) : Option String :=
  if e.label = "GPE" then
    if e.text = "UK" ∨ e.text = "U.K" then some ("United Kingdom")
    else if e.text = "USA" ∨ e.text = "U.S.A" ∨ e.text = "United States of America" then
      some ("United States")
    else if e.text ∈ countries then some e.text
    else none
  else none

/-- Specification-side row count: the sum, over all articles and over
their non-collective authors, of the number of affiliation strings of
the author. -/
def spec_row_count (articles : List ArticleX) : Nat :=
  (articles.map (fun art =>
    ((art.authors.filter (fun au => au.collectiveName.isNone)).map
      (fun au => au.affiliations.length)).sum)).sum

theorem country_loop_eq_findSome (countries : List String) :
    ∀ l : List Ent, country_loop countries l = l.findSome? (classifyCountry countries) := by
  intro l
  induction l with
  | nil => rfl
  | cons e rest ih =>
    by_cases hg : e.label = "GPE"
    · by_cases h1 : e.text = "UK" ∨ e.text = "U.K"
      · simp [country_loop, classifyCountry, List.findSome?, hg, h1]
      · by_cases h2 : e.text = "USA" ∨ e.text = "U.S.A" ∨ e.text = "United States of America"
        · simp [country_loop, classifyCountry, List.findSome?, hg, h1, h2]
        · by_cases h3 : e.text ∈ countries
          · simp [country_loop, classifyCountry, List.findSome?, hg, h1, h2, h3]
          · simp [country_loop, classifyCountry, List.findSome?, hg, h1, h2, h3, ih]
    · simp [country_loop, classifyCountry, List.findSome?, hg, ih]

theorem cacheLookup_cons (k v : String) (cache : Cache) (q : String) :
    cacheLookup ((k, v) :: cache) q = if q = k then some v else cacheLookup cache q := rfl

theorem firstHit_all_miss (cache : Cache) :
    ∀ l : List String, firstHit cache l = none →
      ∀ x, x ∈ l → cacheLookup cache x = none := by
  intro l
  induction l with
  | nil => intro _ x hx; cases hx
  | cons o rest ih =>
    intro h x hx
    by_cases ho : (cacheLookup cache o).isSome
    · simp [firstHit, ho] at h
    · rcases List.mem_cons.mp hx with hxo | hxr
      · subst hxo
        exact Option.not_isSome_iff_eq_none.mp ho
      · exact ih (by simpa [firstHit, ho] using h) x hxr

theorem firstHit_after_insert (bo bm : String) (cache : Cache) :
    ∀ l : List String, bo ∈ l →
      (∀ x, x ∈ l → cacheLookup cache x = none) →
      firstHit ((bo, bm) :: cache) l = some bo := by
  intro l
  induction l with
  | nil => intro h; cases h
  | cons o rest ih =>
    intro hmem hnone
    by_cases ho : o = bo
    · subst ho
      simp [firstHit, cacheLookup_cons]
    · have hco : cacheLookup cache o = none := hnone o (List.mem_cons_self o rest)
      have hbo : bo ∈ rest := by
        rcases List.mem_cons.mp hmem with h | h
        · exact absurd h.symm ho
        · exact h
      have : cacheLookup ((bo, bm) :: cache) o = none := by
        rw [cacheLookup_cons, if_neg ho, hco]
      simp only [firstHit, this, Option.isSome_none, Bool.false_eq_true, if_false]
      exact ih hbo (fun x hx => hnone x (List.mem_cons_of_mem o hx))

theorem extractOne_spec (scorer : String → String → Nat) (query : String)
    (cutoff : Nat) (U : List String) :
    ∀ l : List String, (∀ x, x ∈ l → x ∈ U) →
    ∀ acc : Option (String × Nat),
      (∀ nm sc, acc = some (nm, sc) → nm ∈ U ∧ scorer query nm = sc ∧ cutoff ≤ sc) →
    ∀ nm sc, extractOne scorer query cutoff l acc = some (nm, sc) →
      nm ∈ U ∧ scorer query nm = sc ∧ cutoff ≤ sc := by
  intro l
  induction l with
  | nil => intro _ acc hacc nm sc h; exact hacc nm sc h
  | cons name rest ih =>
    intro hsub acc hacc nm sc h
    simp only [extractOne] at h
    apply ih (fun x hx => hsub x (List.mem_cons_of_mem name hx)) _ _ nm sc h
    intro nm2 sc2 hb
    cases hoa : acc with
    | none =>
      simp only [hoa] at hb
      by_cases hc : cutoff ≤ scorer query name
      · rw [if_pos hc] at hb
        injection hb with hb2
        injection hb2 with hbn hbs
        subst hbn; subst hbs
        exact ⟨hsub name (List.mem_cons_self name rest), rfl, hc⟩
      · rw [if_neg hc] at hb
        cases hb
    | some p =>
      rcases p with ⟨bn, bs⟩
      simp only [hoa] at hb
      have hold := hacc bn bs hoa
      by_cases hlt : bs < scorer query name
      · rw [if_pos hlt] at hb
        injection hb with hb2
        injection hb2 with hbn hbs
        subst hbn; subst hbs
        refine ⟨hsub name (List.mem_cons_self name rest), rfl, ?_⟩
        calc cutoff ≤ bs := hold.2.2
          _ ≤ scorer query name := Nat.le_of_lt hlt
      · rw [if_neg hlt] at hb
        injection hb with hb2
        injection hb2 with hbn hbs
        subst hbn; subst hbs
        exact hold

theorem bestLoop_spec (scorer : String → String → Nat) (names : List String)
    (U : List String) :
    ∀ l : List String, (∀ x, x ∈ l → x ∈ U) →
    ∀ (best : Option (String × String × Nat)) (cnt : Nat),
      (∀ o nm sc, best = some (o, nm, sc) →
        o ∈ U ∧ nm ∈ names ∧ scorer o nm = sc ∧ 90 ≤ sc) →
    ∀ o nm sc cnt2, bestLoop scorer names l best cnt = (some (o, nm, sc), cnt2) →
      o ∈ U ∧ nm ∈ names ∧ scorer o nm = sc ∧ 90 ≤ sc := by
  intro l
  induction l with
  | nil =>
    intro _ best cnt hbest o nm sc cnt2 h
    simp only [bestLoop] at h
    exact hbest o nm sc (congrArg Prod.fst h)
  | cons org rest ih =>
    intro hsub best cnt hbest o nm sc cnt2 h
    simp only [bestLoop] at h
    have hrest : ∀ x, x ∈ rest → x ∈ U :=
      fun x hx => hsub x (List.mem_cons_of_mem org hx)
    cases heo : extractOne scorer org 90 names none with
    | none =>
      simp only [heo] at h
      exact ih hrest best _ hbest o nm sc cnt2 h
    | some p =>
      rcases p with ⟨mn, ms⟩
      simp only [heo] at h
      have hone : mn ∈ names ∧ scorer org mn = ms ∧ 90 ≤ ms :=
        extractOne_spec scorer org 90 names names (fun x hx => hx) none
          (by intro a b hab; cases hab) mn ms heo
      have hupd : ∀ o2 nm2 sc2, (some (org, mn, ms) : Option (String × String × Nat)) = some (o2, nm2, sc2) →
          o2 ∈ U ∧ nm2 ∈ names ∧ scorer o2 nm2 = sc2 ∧ 90 ≤ sc2 := by
        intro o2 nm2 sc2 hb
        injection hb with hb2
        injection hb2 with hbo hb3
        injection hb3 with hbn hbs
        subst hbo; subst hbn; subst hbs
        exact ⟨hsub org (List.mem_cons_self org rest), hone.1, hone.2.1, hone.2.2⟩
      split at h
      · exact ih hrest _ _ hupd o nm sc cnt2 h
      · exact ih hrest best _ hbest o nm sc cnt2 h

theorem process_affiliations_length (tagger : String → List Ent)
    (scorer : String → String → Nat) (countries : List String)
    (institution_data : List InstRow) (base : Row) :
    ∀ (affils : List (Option String)) (cache : Cache) (rows : List Row) (cache2 : Cache),
      process_affiliations tagger scorer countries institution_data base affils cache =
        Except.ok (rows, cache2) →
      rows.length = affils.length := by
  intro affils
  induction affils with
  | nil =>
    intro cache rows cache2 h
    simp only [process_affiliations] at h
    injection h with h2
    have h3 : ([] : List Row) = rows := congrArg Prod.fst h2
    rw [← h3]
    rfl
  | cons a rest ih =>
    intro cache rows cache2 h
    simp only [process_affiliations] at h
    cases hx : extract_and_insert_affiliation_info tagger scorer countries a base institution_data cache with
    | error e => simp only [hx] at h; exact Except.noConfusion h
    | ok rc =>
      rcases rc with ⟨row, cacheb⟩
      simp only [hx] at h
      cases hr : process_affiliations tagger scorer countries institution_data base rest cacheb with
      | error e => simp only [hr] at h; exact Except.noConfusion h
      | ok rsc =>
        rcases rsc with ⟨rs, cachec⟩
        simp only [hr] at h
        injection h with h2
        have hrows : row :: rs = rows := congrArg Prod.fst h2
        rw [← hrows]
        simp [ih cacheb rs cachec hr]

theorem process_authors_length (tagger : String → List Ent)
    (scorer : String → String → Nat) (countries : List String)
    (institution_data : List InstRow) (article_data : Row) :
    ∀ (authors : List AuthorX) (cache : Cache) (rows : List Row) (cache2 : Cache),
      process_authors tagger scorer countries institution_data article_data authors cache =
        Except.ok (rows, cache2) →
      rows.length = ((authors.filter (fun au => au.collectiveName.isNone)).map
        (fun au => au.affiliations.length)).sum := by
  intro authors
  induction authors with
  | nil =>
    intro cache rows cache2 h
    simp only [process_authors] at h
    injection h with h2
    have h3 : ([] : List Row) = rows := congrArg Prod.fst h2
    rw [← h3]
    rfl
  | cons au rest ih =>
    intro cache rows cache2 h
    simp only [process_authors] at h
    cases hcn : au.collectiveName with
    | some c =>
      simp only [hcn, Option.isSome_some, if_true] at h
      have hlen := ih cache rows cache2 h
      rw [hlen]
      simp [List.filter_cons, hcn]
    | none =>
      simp only [hcn, Option.isSome_none, Bool.false_eq_true, if_false] at h
      cases hx : process_affiliations tagger scorer countries institution_data
          (insert_author_info au article_data) au.affiliations cache with
      | error e => simp only [hx] at h; exact Except.noConfusion h
      | ok rc =>
        rcases rc with ⟨rows1, cacheb⟩
        simp only [hx] at h
        cases hr : process_authors tagger scorer countries institution_data article_data rest cacheb with
        | error e => simp only [hr] at h; exact Except.noConfusion h
        | ok rsc =>
          rcases rsc with ⟨rows2, cachec⟩
          simp only [hr] at h
          injection h with h2
          have hrows : rows1 ++ rows2 = rows := congrArg Prod.fst h2
          rw [← hrows]
          have h1 := process_affiliations_length tagger scorer countries institution_data
            (insert_author_info au article_data) au.affiliations cache rows1 cacheb hx
          have h2b := ih cacheb rows2 cachec hr
          simp [List.filter_cons, hcn, List.length_append, h1, h2b]

theorem process_articles_length (tagger : String → List Ent)
    (scorer : String → String → Nat) (countries : List String)
    (institution_data : List InstRow) :
    ∀ (articles : List ArticleX) (cache : Cache) (rows : List Row) (cache2 : Cache),
      process_articles tagger scorer countries institution_data articles cache =
        Except.ok (rows, cache2) →
      rows.length = spec_row_count articles := by
  intro articles
  induction articles with
  | nil =>
    intro cache rows cache2 h
    simp only [process_articles] at h
    injection h with h2
    have h3 : ([] : List Row) = rows := congrArg Prod.fst h2
    rw [← h3]
    rfl
  | cons art rest ih =>
    intro cache rows cache2 h
    simp only [process_articles] at h
    cases hx : process_authors tagger scorer countries institution_data
        (insert_article_info art {}) art.authors cache with
    | error e => simp only [hx] at h; exact Except.noConfusion h
    | ok rc =>
      rcases rc with ⟨rows1, cacheb⟩
      simp only [hx] at h
      cases hr : process_articles tagger scorer countries institution_data rest cacheb with
      | error e => simp only [hr] at h; exact Except.noConfusion h
      | ok rsc =>
        rcases rsc with ⟨rows2, cachec⟩
        simp only [hr] at h
        injection h with h2
        have hrows : rows1 ++ rows2 = rows := congrArg Prod.fst h2
        rw [← hrows]
        have h1 := process_authors_length tagger scorer countries institution_data
          (insert_article_info art {}) art.authors cache rows1 cacheb hx
        have h2b := ih cacheb rows2 cachec hr
        simp [spec_row_count, List.length_append, h1, h2b]

/-- Trivial tagger used as a concrete instantiation of the external NER
capability in witnesses. -/
def tagger0 : String → List Ent := fun _ => []

/-- Exact-match scorer used as a concrete instantiation of the external
similarity capability in witnesses: 100 for equal strings, 0 otherwise
(the value fuzz.ratio also takes on these inputs). -/
def scorer0 : String → String → Nat := fun a b => if a = b then 100 else 0

/-- Concrete one-article, one-author, one-affiliation citation tree
used by the row-count witness. -/
def witnessArticle : ArticleX :=
  ⟨some ("1"), none, [], [], none,
    [⟨none, some ("A"), some ("B"), none, [some ("")]⟩]⟩

/-- The single output row the pipeline produces on `witnessArticle`. -/
def witnessRow : Row :=
  { articlePMID := some ("1"), authorFirstName := some ("A"),
    authorLastName := some ("B"), authorFullName := some ("A B") }

/-- C1: for every source citation tree processed to completion by
`process_xml_and_generate_csv`, the number of output rows equals the
sum, over all authors not flagged as collective entries, of the number
of affiliation strings of that author; collective authors contribute no
rows. -/
theorem row_count_correct (tagger : String → List Ent)
    (scorer : String → String → Nat) (countries : List String)
    (articles : List ArticleX) (institution_data : List InstRow) (rows : List Row)
    (h : process_xml_and_generate_csv tagger scorer countries articles institution_data =
      Except.ok rows) :
    rows.length = spec_row_count articles := by
  simp only [process_xml_and_generate_csv] at h
  cases hpa : process_articles tagger scorer countries institution_data articles [] with
  | error e => simp only [hpa] at h; exact Except.noConfusion h
  | ok rc =>
    rcases rc with ⟨rows0, cacheF⟩
    simp only [hpa] at h
    injection h with h2
    rw [← h2]
    exact process_articles_length tagger scorer countries institution_data articles [] rows0 cacheF hpa

/-- Witness for C1 at a concrete one-article tree. -/
theorem row_count_witness :
    ([witnessRow] : List Row).length = spec_row_count [witnessArticle] :=
  row_count_correct tagger0 scorer0 [] [witnessArticle] [] [witnessRow] (by rfl)

/-- C2 (amended): the matcher is a pure function of its inputs, so it
is deterministic; whenever some candidate (in reverse document order)
is already in the cache, the first such candidate is returned with its
cached value immediately and with zero similarity computations; and
after any call that returns a successful match, repeating the call with
the cache that call produced returns the same match pair with zero
similarity computations. -/
theorem matcher_cache_consistent (scorer : String → String → Nat)
    (ents : List Ent) (names : List String) (cache : Cache) :
    (∀ org, firstHit cache (foundOrgs ents) = some org →
      extract_and_match_affiliation_name scorer ents names cache =
        ((cacheLookup cache org, some org), cache, 0)) ∧
    (∀ m org cache2 n,
      extract_and_match_affiliation_name scorer ents names cache =
        ((some m, some org), cache2, n) →
      extract_and_match_affiliation_name scorer ents names cache2 =
        ((some m, some org), cache2, 0)) := by
  constructor
  · intro org h
    cases hfo : foundOrgs ents with
    | nil => rw [hfo] at h; exact Option.noConfusion h
    | cons o0 rest =>
      rw [hfo] at h
      simp only [extract_and_match_affiliation_name, hfo, h]
  · intro m org cache2 n h
    cases hfo : foundOrgs ents with
    | nil =>
      simp only [extract_and_match_affiliation_name, hfo] at h
      simp at h
    | cons o0 rest =>
      simp only [extract_and_match_affiliation_name, hfo] at h
      cases hfh : firstHit cache (o0 :: rest) with
      | some o =>
        simp only [hfh] at h
        have h1 : cacheLookup cache o = some m := congrArg (fun x => x.1.1) h
        have h2 : some o = some org := congrArg (fun x => x.1.2) h
        have h3 : cache = cache2 := congrArg (fun x => x.2.1) h
        injection h2 with h2b
        subst h2b
        subst h3
        simp only [extract_and_match_affiliation_name, hfo, hfh, h1]
      | none =>
        simp only [hfh] at h
        cases hbl : bestLoop scorer names (o0 :: rest) none 0 with
        | mk bestOpt cnt =>
          cases bestOpt with
          | none => simp only [hbl] at h; simp at h
          | some b =>
            rcases b with ⟨bo, bm, bs⟩
            simp only [hbl] at h
            have e1 : some bm = some m := congrArg (fun x => x.1.1) h
            have e2 : some bo = some org := congrArg (fun x => x.1.2) h
            have e3 : (bo, bm) :: cache = cache2 := congrArg (fun x => x.2.1) h
            injection e1 with e1b
            injection e2 with e2b
            subst e1b
            subst e2b
            subst e3
            have hspec := bestLoop_spec scorer names (o0 :: rest) (o0 :: rest)
              (fun x hx => hx) none 0 (by intro a b c hab; cases hab) bo bm bs cnt hbl
            have hnone := firstHit_all_miss cache (o0 :: rest) hfh
            have hfh2 : firstHit ((bo, bm) :: cache) (o0 :: rest) = some bo :=
              firstHit_after_insert bo bm cache (o0 :: rest) hspec.1 hnone
            simp [extract_and_match_affiliation_name, hfo, hfh2, cacheLookup_cons]

/-- Witness for C2 at concrete inputs: a cache hit returns the cached
value with zero similarity computations, and repeating a successful
call with the updated cache also performs zero similarity computations. -/
theorem matcher_cache_consistent_witness :
    extract_and_match_affiliation_name scorer0 [⟨"ORG", "Y"⟩] ["Bar"] [("Y", "Z")] =
      ((some ("Z"), some ("Y")), [("Y", "Z")], 0) ∧
    extract_and_match_affiliation_name scorer0 [⟨"ORG", "X"⟩] ["X"] [("X", "X")] =
      ((some ("X"), some ("X")), [("X", "X")], 0) :=
  ⟨(matcher_cache_consistent scorer0 [⟨"ORG", "Y"⟩] ["Bar"] [("Y", "Z")]).1 ("Y") (by rfl),
   (matcher_cache_consistent scorer0 [⟨"ORG", "X"⟩] ["X"] []).2 ("X") ("X")
     [("X", "X")] 1 (by rfl)⟩

/-- C2 counterexample: a call that finds no qualifying match performs
one similarity computation, does not update the cache, and repeating
the call with the cache state it left behind performs one similarity
computation again, not zero as the claim requires. -/
theorem matcher_second_call_recomputes :
    extract_and_match_affiliation_name scorer0 [⟨"ORG", "Foo"⟩] ["Bar"] [] =
      ((none, some ("Foo")), [], 1) ∧
    (extract_and_match_affiliation_name scorer0 [⟨"ORG", "Foo"⟩] ["Bar"]
      (extract_and_match_affiliation_name scorer0 [⟨"ORG", "Foo"⟩] ["Bar"] []).2.1).2.2 = 1 ∧
    (1 : Nat) ≠ 0 :=
  ⟨rfl, rfl, by decide⟩

/-- C3: evaluation of `get_grid_identifier` at the inputs the claim is
about. A `None` name resolves to `None` and a uniquely matching name
resolves to its identifier, but a duplicated canonical name silently
yields the first row instead of an inconsistent-reference-data error,
and a missing canonical name raises a generic index error. -/
theorem grid_identifier_evaluation :
    get_grid_identifier none [] = Except.ok none ∧
    get_grid_identifier (some ("X")) [⟨"X", "id1"⟩] = Except.ok (some ("id1")) ∧
    get_grid_identifier (some ("X")) [⟨"X", "id1"⟩, ⟨"X", "id2"⟩] = Except.ok (some ("id1")) ∧
    get_grid_identifier (some ("X")) [] = Except.error Err.indexError :=
  ⟨rfl, rfl, rfl, rfl⟩

/-- C4: evaluation of the record flattener at a tree whose author has
one processable affiliation followed by an affiliation element without
text. The per-affiliation failure is not caught: the whole run aborts
with the TypeError and not even the first, processable affiliation
produces a row. -/
theorem abort_on_missing_affiliation_text :
    process_xml_and_generate_csv tagger0 scorer0 []
      [⟨some ("1"), none, [], [], none,
        [⟨none, some ("A"), some ("B"), none, [some (""), none]⟩]⟩] [] =
      Except.error Err.typeError := rfl

/-- C5: characterisation of `extract_and_remove_email`. With no found
email the text is returned unmodified; otherwise the first found email
in document order is returned, and the remaining text is obtained by,
for every found email in order, first replacing every occurrence of the
phrasing `Electronic address: {email}.` by a single period and then
removing every remaining bare occurrence of that email, finally
trimming leading and trailing whitespace. -/
theorem email_extraction_characterisation (text : String) :
    extract_and_remove_email text =
      match findallEmails text with
      | [] => (none, text)
      | e :: es =>
        (some e, pyStrip ((e :: es).foldl (fun t email =>
          pyReplaceAll (pyReplaceAll t ("Electronic address: " ++ email ++ ".") (".")) email ("")) text)) := by
  cases hfe : findallEmails text with
  | nil => simp [extract_and_remove_email, hfe]
  | cons e es => simp [extract_and_remove_email, hfe]

/-- Helper: with no email-like substring, extraction is the identity. -/
theorem email_no_match (t : String) (h : findallEmails t = []) :
    extract_and_remove_email t = (none, t) := by
  simp [extract_and_remove_email, h]

/-- C6 (amended): email extraction is idempotent on every text whose
cleaned form contains no email-like substring; removal of a found email
can join the surrounding text into a new email-like substring, so this
side condition does not always hold. -/
theorem email_extraction_conditionally_idempotent (text : String)
    (h : findallEmails (extract_and_remove_email text).2 = []) :
    extract_and_remove_email (extract_and_remove_email text).2 =
      (none, (extract_and_remove_email text).2) :=
  email_no_match (extract_and_remove_email text).2 h

/-- Witness for the amended C6 at a concrete email-free text. -/
theorem email_conditional_idempotence_witness :
    extract_and_remove_email ((extract_and_remove_email ("a b c")).2) =
      (none, (extract_and_remove_email ("a b c")).2) :=
  email_extraction_conditionally_idempotent ("a b c") (by rfl)

/-- C6 counterexample: removing the found emails of
`q@r.ss ab@cdq@r.ss.ef` (the bare removal of `q@r.ss` fires twice, once
inside the second address) joins the remaining fragments into the new
email `ab@cd.ef`, so re-running extraction on the cleaned text finds an
email instead of returning `(none, sameText)`. -/
theorem email_idempotence_counterexample :
    extract_and_remove_email ("q@r.ss ab@cdq@r.ss.ef") = (some ("q@r.ss"), "ab@cd.ef") ∧
    extract_and_remove_email ("ab@cd.ef") = (some ("ab@cd.ef"), "") ∧
    extract_and_remove_email ("ab@cd.ef") ≠ (none, ("ab@cd.ef" : String)) :=
  ⟨rfl, rfl, by decide⟩

/-- C7 (amended): characterisation of `extract_and_remove_zipcode`.
With no match the text is returned unmodified; otherwise the first
regex match in document order is extracted and the first substring
occurrence of the matched text is removed (which is the matched
occurrence only when the matched text does not also occur earlier), and
the remainder is trimmed. -/
theorem zipcode_extraction_characterisation (text : String) :
    extract_and_remove_zipcode text =
      match searchZipcode text with
      | none => (none, text)
      | some z => (some z, pyStrip (pyReplaceFirst text z (""))) := by
  cases hsz : searchZipcode text with
  | none => simp [extract_and_remove_zipcode, hsz]
  | some z => simp [extract_and_remove_zipcode, hsz]

/-- C7 counterexample: in `a12345 12345` the first regex match is the
second, word-bounded `12345` (the first is preceded by a word character
so `\b` fails there), but the removal deletes the first substring
occurrence of `12345`, not the matched occurrence, leaving `a 12345`
instead of `a12345`. -/
theorem zipcode_removes_wrong_occurrence :
    extract_and_remove_zipcode ("a12345 12345") = (some ("12345"), "a 12345") ∧
    ("a 12345" : String) ≠ "a12345" :=
  ⟨rfl, by decide⟩

/-- C8: the Country Normalizer iterates the tagged entities in reverse
document order and returns the first qualifying result, where one
entity qualifies exactly as the claim describes (geopolitical label,
alias rules before exact membership); and on the concrete examples,
`UK` yields `United Kingdom`, `U.S.A` yields `United States`, `France`
yields itself, and `Atlantis` yields nothing. -/
theorem country_normalizer_correct (countries : List String)
    (hFr : "France" ∈ countries) (hAtl : "Atlantis" ∉ countries) :
    (∀ ents : List Ent, extract_affiliation_country ents countries =
      (ents.reverse).findSome? (classifyCountry countries)) ∧
    extract_affiliation_country [⟨"GPE", "UK"⟩] countries = some ("United Kingdom") ∧
    extract_affiliation_country [⟨"GPE", "U.S.A"⟩] countries = some ("United States") ∧
    extract_affiliation_country [⟨"GPE", "France"⟩] countries = some ("France") ∧
    extract_affiliation_country [⟨"GPE", "Atlantis"⟩] countries = none := by
  refine ⟨fun ents => country_loop_eq_findSome countries ents.reverse, ?_, ?_, ?_, ?_⟩
  · show country_loop countries [⟨"GPE", "UK"⟩] = some ("United Kingdom")
    simp [country_loop]
  · show country_loop countries [⟨"GPE", "U.S.A"⟩] = some ("United States")
    have h1 : ¬(("U.S.A" : String) = "UK" ∨ ("U.S.A" : String) = "U.K") := by decide
    simp [country_loop, h1]
  · show country_loop countries [⟨"GPE", "France"⟩] = some ("France")
    have h1 : ¬(("France" : String) = "UK" ∨ ("France" : String) = "U.K") := by decide
    have h2 : ¬(("France" : String) = "USA" ∨ ("France" : String) = "U.S.A" ∨
      ("France" : String) = "United States of America") := by decide
    simp [country_loop, h1, h2, hFr]
  · show country_loop countries [⟨"GPE", "Atlantis"⟩] = none
    have h1 : ¬(("Atlantis" : String) = "UK" ∨ ("Atlantis" : String) = "U.K") := by decide
    have h2 : ¬(("Atlantis" : String) = "USA" ∨ ("Atlantis" : String) = "U.S.A" ∨
      ("Atlantis" : String) = "United States of America") := by decide
    simp [country_loop, h1, h2, hAtl]

/-- Witness for C8 with the concrete country set containing exactly
`France`. -/
theorem country_normalizer_witness :
    extract_affiliation_country [⟨"GPE", "UK"⟩] ["France"] = some ("United Kingdom") ∧
    extract_affiliation_country [⟨"GPE", "France"⟩] ["France"] = some ("France") ∧
    extract_affiliation_country [⟨"GPE", "Atlantis"⟩] ["France"] = none :=
  ⟨(country_normalizer_correct ["France"] (by decide) (by decide)).2.1,
   (country_normalizer_correct ["France"] (by decide) (by decide)).2.2.2.1,
   (country_normalizer_correct ["France"] (by decide) (by decide)).2.2.2.2⟩

/-- C9: invariant of the run-scoped match cache preserved by every call
to the matcher. Every binding of the resulting cache either was already
present, or its key is one of the call's candidates and its value is a
reference name scoring at least 90 against the key; in particular a
no-match outcome is never stored. -/
theorem matcher_cache_invariant (scorer : String → String → Nat)
    (ents : List Ent) (names : List String) (cache : Cache) (k v : String)
    (h : cacheLookup (extract_and_match_affiliation_name scorer ents names cache).2.1 k =
      some v) :
    cacheLookup cache k = some v ∨
      (k ∈ foundOrgs ents ∧ v ∈ names ∧ 90 ≤ scorer k v) := by
  cases hfo : foundOrgs ents with
  | nil =>
    simp only [extract_and_match_affiliation_name, hfo] at h
    exact Or.inl h
  | cons o0 rest =>
    simp only [extract_and_match_affiliation_name, hfo] at h
    cases hfh : firstHit cache (o0 :: rest) with
    | some o =>
      simp only [hfh] at h
      exact Or.inl h
    | none =>
      simp only [hfh] at h
      cases hbl : bestLoop scorer names (o0 :: rest) none 0 with
      | mk bestOpt cnt =>
        cases bestOpt with
        | none =>
          simp only [hbl] at h
          exact Or.inl h
        | some b =>
          rcases b with ⟨bo, bm, bs⟩
          simp only [hbl] at h
          rw [cacheLookup_cons] at h
          by_cases hk : k = bo
          · rw [if_pos hk] at h
            injection h with hv
            have hspec := bestLoop_spec scorer names (o0 :: rest) (o0 :: rest)
              (fun x hx => hx) none 0 (by intro a b c hab; cases hab) bo bm bs cnt hbl
            subst hk
            refine Or.inr ⟨?_, ?_, ?_⟩
            · exact hspec.1
            · rw [← hv]; exact hspec.2.1
            · rw [← hv, hspec.2.2.1]; exact hspec.2.2.2
          · rw [if_neg hk] at h
            exact Or.inl h

/-- Witness for C9 at a concrete call that stores a match. -/
theorem matcher_cache_invariant_witness :
    cacheLookup [] ("X") = some ("X") ∨
      (("X" : String) ∈ foundOrgs [⟨"ORG", "X"⟩] ∧
        ("X" : String) ∈ (["X"] : List String) ∧ 90 ≤ scorer0 ("X") ("X")) :=
  matcher_cache_invariant scorer0 [⟨"ORG", "X"⟩] ["X"] [] ("X") ("X") (by rfl)

/-- C10: `insert_author_info` derives the full name as exactly the
first name, one space and the last name, with an absent `ForeName` or
`LastName` rendered as the literal text `None` inside the full name. -/
theorem author_full_name_correct (author : AuthorX) (target : Row) :
    (insert_author_info author target).authorFullName =
      some (pyFStr author.foreName ++ " " ++ pyFStr author.lastName) ∧
    (insert_author_info ⟨none, none, some ("Smith"), none, []⟩ target).authorFullName =
      some ("None Smith") ∧
    (insert_author_info ⟨none, some ("Jane"), some ("Smith"), none, []⟩ target).authorFullName =
      some ("Jane Smith") ∧
    (insert_author_info ⟨none, none, none, none, []⟩ target).authorFullName =
      some ("None None") :=
  ⟨rfl, rfl, rfl, rfl⟩
